import Mathlib

/-!
Verification of the reference-resolver code generator
(`internal/method/resolver.go` and the `ReferenceProcessor` file of the
`method` package).

The Go code is shallowly embedded: the `jen` statements emitted by the
generator are modelled by the inductive `GoStmt` AST, Go strings by `String`,
Go slices by `List`, and the in-place mutation that `encapsulate` performs on
its variadic `fields` slice is made explicit by returning the final contents
of the slice alongside the built statement.
-/

/-- Character-level model of Go's `strings.NewReplacer("[]", "", "*", "")`:
scan left to right, replacing each non-overlapping occurrence of `[]` or `*`
with the empty string. -/
def cleanerChars : List Char → List Char
  | [] => []
  | [c] => if c = '*' then [] else [c]
  | c :: d :: rest =>
    if c = '*' then cleanerChars (d :: rest)
    else if c = '[' ∧ d = ']' then cleanerChars rest
    else c :: cleanerChars (d :: rest)

/-- The `cleaner` replacer of `resolver.go`, applied to a whole string. -/
def cleaner (s : String) : String := ⟨cleanerChars s.data⟩

/-- Go's `strings.HasPrefix p s`, expressed on the underlying character
lists. -/
def hasPre (p s : String) : Bool := p.data.isPrefixOf s.data

/-- Request record passed to `r.Resolve` / `r.ResolveMultiple` in the
generated code.  Field paths are kept as segment lists; opaque `jen`
expressions (types, extractor calls) are carried as their source text. -/
structure ResolveReq where
  currentValue : List String
  ptrAdapted : Bool
  reference : List String
  selector : List String
  managed : String
  listTy : String
  extract : String
deriving Repr, DecidableEq

/-- AST of the statements the generator emits (the fragment of `jen` that
`resolver.go` uses).  `convCheck` is the `if err = ToPtrValue(..); err != nil`
statement of the pointer branches; `ifErrReturnWrap` is the
`if err != nil { return errors.Wrap(err, ctx) }` check after a lookup call. -/
inductive GoStmt : Type where
  | newResolver (client receiver : String)
  | varDecl (name ty : String)
  | resolveAssign (plural : Bool) (req : ResolveReq)
  | ifErrReturnWrap (ctx : String)
  | convCheck (fn : String) (args : List String) (ctx : String)
  | makeAssign (name ty lenExpr : String)
  | assign (lhs : List String) (rhs : String)
  | ifNonNil (path : List String) (body : List GoStmt)
  | forLoop (idxVar : String) (lenPath : List String) (body : List GoStmt)
  | returnNil
deriving Repr

/-- The `Reference` record built by the `ReferenceProcessor` (one per
annotated field).  `jen.Statement` valued fields hold the rendered source
text of the expression. -/
structure Reference where
  RemoteType : String
  Extractor : String
  RemoteListType : String
  GoValueFieldPath : List String
  GoRefFieldName : String
  GoSelectorFieldName : String
  IsSlice : Bool
  IsPointer : Bool
  SourceType : String
  SourceName : String
deriving Repr, DecidableEq

/-- The dotted prefix expression built by both resolution-call builders:
`jen.Id(fields[0])` followed by `.Dot(fields[i])` for `1 ≤ i ≤ len-2`.
For a path of length one the prefix is just `fields[0]`. -/
def goDotPre (fields : List String) : List String :=
  fields.take (max 1 (fields.length - 1))

/-- Model of `singleResolutionCall` from `resolver.go`.  The Go closure reads
`ref.GoValueFieldPath` when it finally runs; that slice is the very `fields`
slice `encapsulate` has been rewriting in place, and by the time the closure
runs (the base case of `encapsulate`) it holds exactly the `fields` argument
of the closure, so the wrap context is `strings.Join(fields, ".")`. -/
def singleResolutionCall (ref : Reference) : List String → List GoStmt :=
  fun fields =>
    let pre := goDotPre fields
    let currentValuePath := pre ++ [fields.getLastD ""]
    let referenceFieldPath := pre ++ [ref.GoRefFieldName]
    let selectorFieldPath := pre ++ [ref.GoSelectorFieldName]
    let ctx := String.intercalate "." fields
    let setResolvedValue : List GoStmt :=
      if ref.IsPointer then
        [ .varDecl ("v" ++ ref.SourceName) ref.SourceType,
          .convCheck "reference.ToPtrValue"
            ["rsp.ResolvedValue", "v" ++ ref.SourceName] ctx,
          .assign currentValuePath ("v" ++ ref.SourceName) ]
      else
        [ .assign currentValuePath "rsp.ResolvedValue" ]
    [ .resolveAssign false
        { currentValue := currentValuePath
          ptrAdapted := ref.IsPointer
          reference := referenceFieldPath
          selector := selectorFieldPath
          managed := ref.RemoteType
          listTy := ref.RemoteListType
          extract := ref.Extractor },
      .ifErrReturnWrap ctx ]
    ++ setResolvedValue
    ++ [ .assign referenceFieldPath "rsp.ResolvedReference" ]

/-- Model of `multiResolutionCall` from `resolver.go`; see
`singleResolutionCall` for the wrap-context aliasing note. -/
def multiResolutionCall (ref : Reference) : List String → List GoStmt :=
  fun fields =>
    let pre := goDotPre fields
    let currentValuePath := pre ++ [fields.getLastD ""]
    let referenceFieldPath := pre ++ [ref.GoRefFieldName]
    let selectorFieldPath := pre ++ [ref.GoSelectorFieldName]
    let ctx := String.intercalate "." fields
    let setResolvedValues : List GoStmt :=
      if ref.IsPointer then
        [ .makeAssign ("v" ++ ref.SourceName) ref.SourceType
            "len(mrsp.ResolvedValues)",
          .convCheck "reference.ToPtrValues"
            ["mrsp.ResolvedValues", "v" ++ ref.SourceName] ctx,
          .assign currentValuePath ("v" ++ ref.SourceName) ]
      else
        [ .assign currentValuePath "mrsp.ResolvedValues" ]
    [ .resolveAssign true
        { currentValue := currentValuePath
          ptrAdapted := ref.IsPointer
          reference := referenceFieldPath
          selector := selectorFieldPath
          managed := ref.RemoteType
          listTy := ref.RemoteListType
          extract := ref.Extractor },
      .ifErrReturnWrap ctx ]
    ++ setResolvedValues
    ++ [ .assign referenceFieldPath "mrsp.ResolvedReferences" ]

/-- Model of `encapsulate` from `resolver.go`.  Go passes the `fields` slice
by reference and assigns `fields[index] = ...` in place; the embedding
threads that mutation explicitly and returns the final contents of the slice
as the second component.  The emitted `*jen.Statement` is a statement list. -/
def encapsulate (callFn : List String → List GoStmt) (index : Nat)
    (fields : List String) : List GoStmt × List String :=
  if h : fields.length ≤ index then (callFn fields, fields)
  else
    let field := fields.getD index ""
    let fieldPath := (fields.take (index + 1)).map cleaner
    if hasPre "*" field then
      let fields' := fields.set index (cleaner field)
      let r := encapsulate callFn (index + 1) fields'
      ([.ifNonNil fieldPath r.1], r.2)
    else if hasPre "[]" field then
      let fields' :=
        fields.set index (cleaner field ++ "[i" ++ Nat.repr index ++ "]")
      let r := encapsulate callFn (index + 1) fields'
      ([.forLoop ("i" ++ Nat.repr index) fieldPath r.1], r.2)
    else
      encapsulate callFn (index + 1) fields
termination_by fields.length - index
decreasing_by
  · simp only [List.length_set]; omega
  · simp only [List.length_set]; omega
  · omega

/-- One entry of the `resolverCalls` loop of `NewResolveReferences`: the
statement built for `ref`, together with the `Reference` as it stands after
emission (its `GoValueFieldPath` backing array having been rewritten in place
by `encapsulate`). -/
def resolverCallFor (ref : Reference) : List GoStmt × Reference :=
  let r :=
    if ref.IsSlice then encapsulate (multiResolutionCall ref) 0 ref.GoValueFieldPath
    else encapsulate (singleResolutionCall ref) 0 ref.GoValueFieldPath
  (r.1, { ref with GoValueFieldPath := r.2 })

/-- The `initStatements` of `NewResolveReferences`: the shared response
variables, declared at most once each. -/
def initStatements (hasSingle hasMulti : Bool) : List GoStmt :=
  (if hasSingle then [.varDecl "rsp" "reference.ResolutionResponse"] else [])
  ++ (if hasMulti then [.varDecl "mrsp" "reference.MultiResolutionResponse"] else [])

/-- Body of the generated `ResolveReferences` method, in emission order. -/
def procBody (receiver : String) (refs : List Reference) : List GoStmt :=
  .newResolver "c" receiver ::
    (initStatements (refs.any fun r => !r.IsSlice) (refs.any fun r => r.IsSlice)
      ++ [.varDecl "err" "error"]
      ++ (refs.map fun r => (resolverCallFor r).1).flatten
      ++ [.returnNil])

/-- Model of `NewResolveReferences` from the point where the traverser (an
external collaborator) has accumulated `refs`: the emitted method body, if
any, and the reference list as it stands after emission (the only observable
effect of emission on it being the in-place rewrite of each
`GoValueFieldPath`). -/
def NewResolveReferences (receiver : String) (refs : List Reference) :
    Option (List GoStmt) × List Reference :=
  if refs.isEmpty then (none, refs)
  else (some (procBody receiver refs), refs.map fun r => (resolverCallFor r).2)

/-- Characters that never interact with the `cleaner` replacer or the
shape-marker tests. -/
def markerFreeChar (c : Char) : Bool := !(c == '*' || c == '[' || c == ']')

/-- Field names free of shape-marker characters. -/
def markerFree (s : String) : Bool := s.data.all markerFreeChar

/-- Character lists on which the `cleaner` replacer finds nothing to
replace: no `*` character and no adjacent `[]` pair. -/
def cleanFixed : List Char → Bool
  | [] => true
  | [c] => !(c == '*')
  | c :: d :: rest =>
    if c = '*' then false
    else if c = '[' ∧ d = ']' then false
    else cleanFixed (d :: rest)

theorem cleanerChars_of_cleanFixed :
    ∀ l : List Char, cleanFixed l = true → cleanerChars l = l
  | [], _ => rfl
  | [c], h => by
    simp only [cleanFixed, Bool.not_eq_true', beq_eq_false_iff_ne, ne_eq,
      decide_eq_true_eq] at h
    simp [cleanerChars, h]
  | c :: d :: rest, h => by
    by_cases h1 : c = '*'
    · simp [cleanFixed, h1] at h
    · by_cases h2 : c = '[' ∧ d = ']'
      · simp [cleanFixed, h1, h2] at h
      · simp only [cleanFixed, if_neg h1, if_neg h2] at h
        simp only [cleanerChars, if_neg h1, if_neg h2]
        rw [cleanerChars_of_cleanFixed (d :: rest) h]

theorem markerFreeChar_spec (c : Char) (h : markerFreeChar c = true) :
    c ≠ '*' ∧ c ≠ '[' ∧ c ≠ ']' := by
  have h2 := h
  simp only [markerFreeChar, Bool.not_eq_true', Bool.or_eq_false_iff,
    beq_eq_false_iff_ne, ne_eq] at h2
  exact ⟨h2.1.1, h2.1.2, h2.2⟩

theorem cleanFixed_markerFree_append (l t : List Char)
    (h : l.all markerFreeChar = true) : cleanFixed (l ++ t) = cleanFixed t := by
  induction l with
  | nil => rfl
  | cons c l ih =>
    simp only [List.all_cons, Bool.and_eq_true] at h
    obtain ⟨hcs, hl⟩ := h
    obtain ⟨h1, h2, _⟩ := markerFreeChar_spec c hcs
    rcases hlt : l ++ t with _ | ⟨d, rest⟩
    · rcases List.append_eq_nil.mp hlt with ⟨rfl, rfl⟩
      simp [cleanFixed, h1]
    · rw [List.cons_append, hlt]
      simp only [cleanFixed, if_neg h1,
        if_neg (by exact fun hc => h2 hc.1 : ¬(c = '[' ∧ d = ']'))]
      rw [← hlt, ih hl]

theorem digitChar_markerFree (m : Nat) (h : m < 10) :
    markerFreeChar m.digitChar = true := by
  interval_cases m <;> decide

theorem toDigitsCore_markerFree :
    ∀ (fuel n : Nat) (ds : List Char), ds.all markerFreeChar = true →
      (Nat.toDigitsCore 10 fuel n ds).all markerFreeChar = true
  | 0, _, _, h => h
  | fuel + 1, n, ds, h => by
    simp only [Nat.toDigitsCore]
    have hd : ((n % 10).digitChar :: ds).all markerFreeChar = true := by
      simp only [List.all_cons, Bool.and_eq_true]
      exact ⟨digitChar_markerFree _ (Nat.mod_lt _ (by omega)), h⟩
    split
    · exact hd
    · exact toDigitsCore_markerFree fuel (n / 10) _ hd

theorem repr_markerFree (n : Nat) : markerFree (Nat.repr n) = true := by
  have h := toDigitsCore_markerFree (n + 1) n [] rfl
  simpa [markerFree, Nat.repr, Nat.toDigits, List.asString] using h

theorem cleaner_eq_self_of_cleanFixed (s : String) (h : cleanFixed s.data = true) :
    cleaner s = s :=
  String.ext (cleanerChars_of_cleanFixed _ h)

theorem cleanFixed_of_markerFree (s : String) (h : markerFree s = true) :
    cleanFixed s.data = true := by
  have := cleanFixed_markerFree_append s.data [] h
  simpa using this

theorem cleaner_markerFree (s : String) (h : markerFree s = true) : cleaner s = s :=
  cleaner_eq_self_of_cleanFixed s (cleanFixed_of_markerFree s h)

theorem cleaner_indexed (nm : String) (i : Nat) (h : markerFree nm = true) :
    cleaner (nm ++ "[i" ++ Nat.repr i ++ "]") = nm ++ "[i" ++ Nat.repr i ++ "]" := by
  apply cleaner_eq_self_of_cleanFixed
  have hdata : (nm ++ "[i" ++ Nat.repr i ++ "]").data
      = nm.data ++ ('[' :: 'i' :: ((Nat.repr i).data ++ [']'])) := by
    simp [String.data_append]
  rw [hdata, cleanFixed_markerFree_append _ _ h]
  simp only [cleanFixed, if_neg (by decide : ¬('[' : Char) = '*'),
    if_neg (by simp : ¬(('[' : Char) = '[' ∧ ('i' : Char) = ']'))]
  rw [show ('i' :: ((Nat.repr i).data ++ [']']))
      = ('i' :: (Nat.repr i).data) ++ [']'] from rfl]
  rw [cleanFixed_markerFree_append]
  · decide
  · simp only [List.all_cons, Bool.and_eq_true]
    exact ⟨by decide, repr_markerFree i⟩

theorem hasPre_star_of_markerFree (s : String) (h : markerFree s = true) :
    hasPre "*" s = false := by
  rw [hasPre]
  rcases hd : s.data with _ | ⟨c, rest⟩
  · rfl
  · have hc : markerFreeChar c = true := by
      rw [markerFree, hd, List.all_cons, Bool.and_eq_true] at h
      exact h.1
    obtain ⟨h1, _, _⟩ := markerFreeChar_spec c hc
    show List.isPrefixOf ['*'] (c :: rest) = false
    simp [List.isPrefixOf, beq_eq_false_iff_ne]
    exact fun hh => h1 hh.symm

theorem hasPre_brackets_of_markerFree (s : String) (h : markerFree s = true) :
    hasPre "[]" s = false := by
  rw [hasPre]
  rcases hd : s.data with _ | ⟨c, rest⟩
  · rfl
  · have hc : markerFreeChar c = true := by
      rw [markerFree, hd, List.all_cons, Bool.and_eq_true] at h
      exact h.1
    obtain ⟨_, h2, _⟩ := markerFreeChar_spec c hc
    show List.isPrefixOf ['[', ']'] (c :: rest) = false
    simp [List.isPrefixOf, beq_eq_false_iff_ne]
    intro hh
    exact absurd hh.symm h2

theorem hasPre_star_star (s : String) : hasPre "*" ("*" ++ s) = true := by
  rw [hasPre, String.data_append]
  show List.isPrefixOf ['*'] ('*' :: s.data) = true
  simp [List.isPrefixOf]

theorem hasPre_star_brackets (s : String) : hasPre "*" ("[]" ++ s) = false := by
  rw [hasPre, String.data_append]
  show List.isPrefixOf ['*'] ('[' :: ']' :: s.data) = false
  simp [List.isPrefixOf]

theorem hasPre_brackets_brackets (s : String) : hasPre "[]" ("[]" ++ s) = true := by
  rw [hasPre, String.data_append]
  show List.isPrefixOf ['[', ']'] ('[' :: ']' :: s.data) = true
  simp [List.isPrefixOf]

theorem cleaner_star (s : String) (h : markerFree s = true) :
    cleaner ("*" ++ s) = s := by
  apply String.ext
  show cleanerChars ("*" ++ s).data = s.data
  rw [String.data_append]
  have hfix := cleanerChars_of_cleanFixed s.data (cleanFixed_of_markerFree s h)
  rcases hd : s.data with _ | ⟨c, rest⟩
  · rfl
  · show cleanerChars ('*' :: c :: rest) = c :: rest
    rw [hd] at hfix
    simpa [cleanerChars] using hfix

theorem cleaner_brackets (s : String) (h : markerFree s = true) :
    cleaner ("[]" ++ s) = s := by
  apply String.ext
  show cleanerChars ("[]" ++ s).data = s.data
  rw [String.data_append]
  show cleanerChars ('[' :: ']' :: s.data) = s.data
  rw [show cleanerChars ('[' :: ']' :: s.data) = cleanerChars s.data by
    simp [cleanerChars]]
  exact cleanerChars_of_cleanFixed s.data (cleanFixed_of_markerFree s h)

theorem map_cleaner_fixed :
    ∀ l : List String, (∀ d ∈ l, cleaner d = d) → l.map cleaner = l
  | [], _ => rfl
  | a :: l, h => by
    rw [List.map_cons, h a (List.mem_cons_self a l),
      map_cleaner_fixed l (fun d hd => h d (List.mem_cons_of_mem a hd))]

/-- Shape tag of one path segment, as the spec describes it. -/
inductive SegShape : Type where
  | plain
  | optionalSeg
  | repeatedSeg
deriving Repr, DecidableEq

/-- A shape-tagged path segment. -/
structure Seg where
  name : String
  shape : SegShape
deriving Repr, DecidableEq

/-- String encoding of a shape-tagged segment as it appears in a
`GoValueFieldPath`: the `*` marker for optional, the `[]` marker for
repeated. -/
def encodeSeg : Seg → String
  | ⟨n, .plain⟩ => n
  | ⟨n, .optionalSeg⟩ => "*" ++ n
  | ⟨n, .repeatedSeg⟩ => "[]" ++ n

/-- The narrowed name each segment carries once its guard or loop scope has
been entered: markers stripped, repeated segments indexed by the loop
variable of their nesting depth. -/
def resolvedSegs : Nat → List Seg → List String
  | _, [] => []
  | i, seg :: rest =>
    (match seg.shape with
      | .repeatedSeg => seg.name ++ "[i" ++ Nat.repr i ++ "]"
      | _ => seg.name) :: resolvedSegs (i + 1) rest

/-- Modelled from the spec: the guard-building algorithm of spec section 4.2,
written directly from its words.  Segments are consumed left to right; an
optional segment yields a null guard on the current path wrapping the
recursion with the marker stripped; a repeated segment yields a bounded
iteration from 0 while the index is below the length of the current path,
wrapping the recursion with that segment replaced by an indexed element
access; a plain segment yields no guard or loop; when all segments are
consumed, the terminal call-emission function receives the fully-qualified
current path. -/
def specGuardBuilder (callFn : List String → List GoStmt) :
    List String → Nat → List Seg → List GoStmt
  | acc, _, [] => callFn acc
  | acc, i, seg :: rest =>
    match seg.shape with
    | .plain => specGuardBuilder callFn (acc ++ [seg.name]) (i + 1) rest
    | .optionalSeg =>
        [.ifNonNil (acc ++ [seg.name])
          (specGuardBuilder callFn (acc ++ [seg.name]) (i + 1) rest)]
    | .repeatedSeg =>
        [.forLoop ("i" ++ Nat.repr i) (acc ++ [seg.name])
          (specGuardBuilder callFn
            (acc ++ [seg.name ++ "[i" ++ Nat.repr i ++ "]"]) (i + 1) rest)]

theorem encapsulate_spec_general (callFn : List String → List GoStmt)
    (segs : List Seg) :
    ∀ done : List String,
      (∀ d ∈ done, cleaner d = d) →
      (∀ s ∈ segs, markerFree s.name = true) →
      encapsulate callFn done.length (done ++ segs.map encodeSeg) =
        (specGuardBuilder callFn done done.length segs,
         done ++ resolvedSegs done.length segs) := by
  induction segs with
  | nil =>
    intro done hd _
    rw [encapsulate]
    simp [specGuardBuilder, resolvedSegs]
  | cons seg rest ih =>
    intro done hd hs
    obtain ⟨nm, shape⟩ := seg
    simp only [List.map_cons]
    have hnm : markerFree nm = true := hs ⟨nm, shape⟩ (List.mem_cons_self _ _)
    have hrest : ∀ s ∈ rest, markerFree s.name = true :=
      fun s hsm => hs s (List.mem_cons_of_mem _ hsm)
    have hlen : ¬ (done ++ (encodeSeg ⟨nm, shape⟩) :: rest.map encodeSeg).length
        ≤ done.length := by simp
    have hfield : (done ++ (encodeSeg ⟨nm, shape⟩) :: rest.map encodeSeg).getD
        done.length "" = encodeSeg ⟨nm, shape⟩ := by
      rw [List.getD_append_right _ _ _ _ (le_refl _)]
      simp
    have htake : ((done ++ (encodeSeg ⟨nm, shape⟩) :: rest.map encodeSeg).take
          (done.length + 1)).map cleaner = done ++ [cleaner (encodeSeg ⟨nm, shape⟩)] := by
      rw [List.take_append 1]
      simp [map_cleaner_fixed done hd]
    have hset : ∀ v, (done ++ (encodeSeg ⟨nm, shape⟩) :: rest.map encodeSeg).set
        done.length v = (done ++ [v]) ++ rest.map encodeSeg := by
      intro v
      rw [List.set_append, if_neg (lt_irrefl _), Nat.sub_self]
      simp
    rw [encapsulate, dif_neg hlen]
    simp only [hfield, htake]
    rcases shape with _ | _ | _
    · -- plain segment
      have h1 : hasPre "*" (encodeSeg ⟨nm, .plain⟩) = false :=
        hasPre_star_of_markerFree nm hnm
      have h2 : hasPre "[]" (encodeSeg ⟨nm, .plain⟩) = false :=
        hasPre_brackets_of_markerFree nm hnm
      rw [h1, h2]
      simp only [Bool.false_eq_true, if_false]
      have hre : (done ++ (encodeSeg ⟨nm, .plain⟩) :: rest.map encodeSeg)
          = (done ++ [nm]) ++ rest.map encodeSeg := by
        simp [encodeSeg]
      rw [hre, show done.length + 1 = (done ++ [nm]).length by simp]
      rw [ih (done ++ [nm])
        (by
          intro d hdm
          rcases List.mem_append.mp hdm with hmem | hmem
          · exact hd d hmem
          · rw [List.mem_singleton.mp hmem]
            exact cleaner_markerFree nm hnm)
        hrest]
      simp [specGuardBuilder, resolvedSegs, encodeSeg]
    · -- optional segment
      have h1 : hasPre "*" (encodeSeg ⟨nm, .optionalSeg⟩) = true := hasPre_star_star nm
      rw [h1]
      simp only [if_true]
      rw [hset, show cleaner (encodeSeg ⟨nm, .optionalSeg⟩) = nm from cleaner_star nm hnm]
      rw [show done.length + 1 = (done ++ [nm]).length by simp]
      rw [ih (done ++ [nm])
        (by
          intro d hdm
          rcases List.mem_append.mp hdm with hmem | hmem
          · exact hd d hmem
          · rw [List.mem_singleton.mp hmem]
            exact cleaner_markerFree nm hnm)
        hrest]
      simp [specGuardBuilder, resolvedSegs, cleaner_star nm hnm]
    · -- repeated segment
      have h1 : hasPre "*" (encodeSeg ⟨nm, .repeatedSeg⟩) = false := hasPre_star_brackets nm
      have h2 : hasPre "[]" (encodeSeg ⟨nm, .repeatedSeg⟩) = true := hasPre_brackets_brackets nm
      rw [h1, h2]
      simp only [Bool.false_eq_true, if_false, if_true]
      rw [hset, show cleaner (encodeSeg ⟨nm, .repeatedSeg⟩) = nm from cleaner_brackets nm hnm]
      rw [show done.length + 1
          = (done ++ [nm ++ "[i" ++ Nat.repr done.length ++ "]"]).length by simp]
      rw [ih (done ++ [nm ++ "[i" ++ Nat.repr done.length ++ "]"])
        (by
          intro d hdm
          rcases List.mem_append.mp hdm with hmem | hmem
          · exact hd d hmem
          · rw [List.mem_singleton.mp hmem]
            exact cleaner_indexed nm done.length hnm)
        hrest]
      simp [specGuardBuilder, resolvedSegs, cleaner_brackets nm hnm]

/-- C1: the guard builder consumes the shape-tagged segments of a value field
path left to right — an optional segment (prefix `*`) yields a null guard
wrapping the recursion with the marker stripped, a repeated segment (prefix
`[]`) yields a bounded iteration from 0 while the index is below the length
of the current path, wrapping the recursion with the segment replaced by an
indexed element access, a plain segment yields no guard or loop, and when all
segments are consumed the terminal call-emission function receives the
fully-qualified current path: `encapsulate` coincides with the spec's
guard-building algorithm on every segment list with marker-free names. -/
theorem encapsulate_meets_spec_guard_builder
    (callFn : List String → List GoStmt) (segs : List Seg)
    (h : ∀ s ∈ segs, markerFree s.name = true) :
    encapsulate callFn 0 (segs.map encodeSeg) =
      (specGuardBuilder callFn [] 0 segs, resolvedSegs 0 segs) := by
  have hg := encapsulate_spec_general callFn segs [] (by simp) h
  simpa using hg

/-- Witness for `encapsulate_meets_spec_guard_builder` at the concrete
shape-tagged path `r.Spec.Items[].Name*`. -/
theorem encapsulate_meets_spec_guard_builder_witness :
    encapsulate (fun fs => [.assign fs "x"]) 0
        (List.map encodeSeg
          [⟨"r", .plain⟩, ⟨"Spec", .plain⟩, ⟨"Items", .repeatedSeg⟩,
            ⟨"Name", .optionalSeg⟩]) =
      (specGuardBuilder (fun fs => [.assign fs "x"]) [] 0
          [⟨"r", .plain⟩, ⟨"Spec", .plain⟩, ⟨"Items", .repeatedSeg⟩,
            ⟨"Name", .optionalSeg⟩],
        resolvedSegs 0
          [⟨"r", .plain⟩, ⟨"Spec", .plain⟩, ⟨"Items", .repeatedSeg⟩,
            ⟨"Name", .optionalSeg⟩]) :=
  encapsulate_meets_spec_guard_builder _ _ (by decide)

/-- Concrete `Reference` whose value field path has the shape `A.B[].C*`:
a repeated segment `B` followed by the terminal optional field `C`. -/
def refABC : Reference :=
  { RemoteType := "&Remote\x7b\x7d"
    Extractor := "reference.ExternalName()"
    RemoteListType := "&RemoteList\x7b\x7d"
    GoValueFieldPath := ["A", "[]B", "*C"]
    GoRefFieldName := "CRef"
    GoSelectorFieldName := "CSelector"
    IsSlice := false
    IsPointer := true
    SourceType := "string"
    SourceName := "C" }

/-- C2: for a reference field whose value path has the shape `A.B[].C*`, the
emitted block is a bounded loop over `B`, containing a null guard on `C`,
containing the terminal resolution call — not the reverse nesting. -/
theorem shape_repeated_then_optional_nesting :
    (resolverCallFor refABC).1 =
      [.forLoop "i1" ["A", "B"]
        [.ifNonNil ["A", "B[i1]", "C"]
          (singleResolutionCall refABC ["A", "B[i1]", "C"])]] := by
  simp +decide [resolverCallFor, refABC, encapsulate, hasPre, cleaner,
    cleanerChars]
  congr 1

theorem map_eq_self_of {α : Type} (l : List α) (f : α → α)
    (h : ∀ x ∈ l, f x = x) : l.map f = l := by
  induction l with
  | nil => rfl
  | cons a l ih =>
    rw [List.map_cons, h a (List.mem_cons_self a l),
      ih (fun x hx => h x (List.mem_cons_of_mem a hx))]

theorem encapsulate_snd_markerFree_aux (callFn : List String → List GoStmt) :
    ∀ (n index : Nat) (fields : List String), fields.length - index ≤ n →
      (∀ seg ∈ fields, markerFree seg = true) →
      (encapsulate callFn index fields).2 = fields := by
  intro n
  induction n with
  | zero =>
    intro index fields hn _
    rw [encapsulate, dif_pos (by omega)]
  | succ n ih =>
    intro index fields hn hmf
    by_cases hle : fields.length ≤ index
    · rw [encapsulate, dif_pos hle]
    · have hlt : index < fields.length := by omega
      have hm : fields.getD index "" ∈ fields := by
        rw [List.getD_eq_getElem fields "" hlt]
        exact List.getElem_mem _
      have hstar : hasPre "*" (fields.getD index "") = false :=
        hasPre_star_of_markerFree _ (hmf _ hm)
      have hbr : hasPre "[]" (fields.getD index "") = false :=
        hasPre_brackets_of_markerFree _ (hmf _ hm)
      rw [encapsulate, dif_neg hle]
      simp only [hstar, hbr, Bool.false_eq_true, if_false]
      exact ih (index + 1) fields (by omega) hmf

theorem encapsulate_snd_markerFree (callFn : List String → List GoStmt)
    (index : Nat) (fields : List String)
    (h : ∀ seg ∈ fields, markerFree seg = true) :
    (encapsulate callFn index fields).2 = fields :=
  encapsulate_snd_markerFree_aux callFn (fields.length - index) index fields
    (le_refl _) h

theorem map_congr_fn {α β : Type} (l : List α) (f g : α → β)
    (h : ∀ x ∈ l, f x = g x) : l.map f = l.map g := by
  induction l with
  | nil => rfl
  | cons a l ih =>
    rw [List.map_cons, List.map_cons, h a (List.mem_cons_self a l),
      ih (fun x hx => h x (List.mem_cons_of_mem a hx))]

theorem resolverCallFor_snd (ref : Reference) :
    (resolverCallFor ref).2 = { ref with GoValueFieldPath :=
      (if ref.IsSlice then
        encapsulate (multiResolutionCall ref) 0 ref.GoValueFieldPath
      else
        encapsulate (singleResolutionCall ref) 0 ref.GoValueFieldPath).2 } :=
  rfl

/-- C6 counterexample: synthesis does modify a field of a Reference — for
the reference whose value field path is `["A", "[]B", "*C"]` the accumulated
list after emission carries the narrowed path, not the original one. -/
theorem reference_immutability_counterexample :
    ((NewResolveReferences "r" [refABC]).2.map fun r => r.GoValueFieldPath)
        = [["A", "B[i1]", "C"]] ∧
    refABC.GoValueFieldPath = ["A", "[]B", "*C"] ∧
    (["A", "B[i1]", "C"] : List String) ≠ ["A", "[]B", "*C"] := by
  refine ⟨?_, rfl, by decide⟩
  rw [NewResolveReferences, if_neg (by decide)]
  simp only [List.map_cons, List.map_nil, resolverCallFor_snd]
  simp +decide [refABC, encapsulate, hasPre, cleaner, cleanerChars]

/-- C6 (amended): the synthesizer takes the accumulated Reference list as is
and, apart from `GoValueFieldPath` — whose elements the guard builder
rewrites in place while narrowing scopes — no field of any Reference is
modified during synthesis of the procedure; a `GoValueFieldPath` containing
no shape markers is itself also left unchanged. -/
theorem references_readonly_except_path (receiver : String)
    (refs : List Reference) :
    ((NewResolveReferences receiver refs).2.map fun r =>
        { r with GoValueFieldPath := ([] : List String) })
      = refs.map (fun r => { r with GoValueFieldPath := ([] : List String) }) ∧
    ((∀ r ∈ refs, ∀ seg ∈ r.GoValueFieldPath, markerFree seg = true) →
      (NewResolveReferences receiver refs).2 = refs) := by
  constructor
  · rw [NewResolveReferences]
    by_cases he : refs.isEmpty = true
    · rw [if_pos he]
    · rw [if_neg he]
      simp only [List.map_map]
      apply map_congr_fn
      intro r _
      rw [Function.comp_apply, resolverCallFor_snd]
  · intro h
    rw [NewResolveReferences]
    by_cases he : refs.isEmpty = true
    · rw [if_pos he]
    · rw [if_neg he]
      apply map_eq_self_of
      intro r hr
      rw [resolverCallFor_snd]
      by_cases hs : r.IsSlice
      · rw [if_pos hs, encapsulate_snd_markerFree _ 0 _ (h r hr)]
      · rw [if_neg hs, encapsulate_snd_markerFree _ 0 _ (h r hr)]

/-- Witness for `references_readonly_except_path`: a reference with a
marker-free value field path comes back from synthesis entirely unchanged. -/
theorem references_readonly_except_path_witness :
    (NewResolveReferences "r"
        [{ refABC with GoValueFieldPath := ["r", "Spec", "Name"] }]).2
      = [{ refABC with GoValueFieldPath := ["r", "Spec", "Name"] }] :=
  (references_readonly_except_path "r"
    [{ refABC with GoValueFieldPath := ["r", "Spec", "Name"] }]).2 (by decide)

/-- C8: an object whose accumulated Reference list is empty gets no
generated procedure at all, and this is not an error; a nonempty list always
yields exactly one procedure. -/
theorem empty_references_no_procedure (receiver : String)
    (refs : List Reference) :
    (NewResolveReferences receiver refs).1 = none ↔ refs = [] := by
  rw [NewResolveReferences]
  by_cases he : refs.isEmpty = true
  · simp [List.isEmpty_iff.mp he]
  · rw [if_neg he]
    constructor
    · intro hcon
      simp at hcon
    · intro hcon
      subst hcon
      exact absurd rfl he

/-- Runtime environment for executing a generated procedure body: which
lookup calls succeed (numbered in execution order), which pointer-adapting
conversions succeed, which guarded paths are non-nil, and the slice length
found at each loop path. -/
structure Env where
  ok : Nat → Bool
  convOk : Nat → Bool
  nonNil : List String → Bool
  lenOf : List String → Nat

/-- Execution state of a generated procedure body: number of lookup calls
and of pointer-adapting conversions performed so far, whether the `err`
variable currently holds a failure, and — once a return statement has run —
the returned value (`some none` for `return nil`, `some (some ctx)` for a
wrapped error return). -/
structure ExecSt where
  nCalls : Nat
  nConv : Nat
  errFlag : Bool
  ret : Option (Option String)
deriving Repr, DecidableEq

mutual
/-- Big-step execution of one emitted statement.  Once a return has run,
every remaining statement is skipped, which models the early return of the
generated Go code. -/
def exec (env : Env) (s : GoStmt) (st : ExecSt) : ExecSt :=
  if st.ret.isSome then st
  else
    match s with
    | .newResolver _ _ => st
    | .varDecl _ _ => st
    | .resolveAssign _ _ =>
        { st with nCalls := st.nCalls + 1, errFlag := !env.ok st.nCalls }
    | .ifErrReturnWrap ctx =>
        if st.errFlag then { st with ret := some (some ctx) } else st
    | .convCheck _ _ ctx =>
        if env.convOk st.nConv then
          { st with nConv := st.nConv + 1, errFlag := false }
        else
          { st with nConv := st.nConv + 1, errFlag := true, ret := some (some ctx) }
    | .makeAssign _ _ _ => st
    | .assign _ _ => st
    | .ifNonNil path body =>
        if env.nonNil path then execList env body st else st
    | .forLoop _ lenPath body => execIter env (env.lenOf lenPath) body st
    | .returnNil => { st with ret := some none }
termination_by (sizeOf s, 0)

/-- Iterated execution of a loop body. -/
def execIter (env : Env) (n : Nat) (body : List GoStmt) (st : ExecSt) :
    ExecSt :=
  match n with
  | 0 => st
  | m + 1 => execIter env m body (execList env body st)
termination_by (sizeOf body, n + 1)

/-- Sequential execution of a statement list. -/
def execList (env : Env) (l : List GoStmt) (st : ExecSt) : ExecSt :=
  match l with
  | [] => st
  | s :: rest => execList env rest (exec env s st)
termination_by (sizeOf l, 0)
end

/-- Statement lists in which every lookup call is immediately followed by
its failure check, at every nesting depth. -/
def CheckedL : List GoStmt → Bool
  | [] => true
  | .resolveAssign _ _ :: .ifErrReturnWrap _ :: rest => CheckedL rest
  | .resolveAssign _ _ :: _ => false
  | .ifNonNil _ body :: rest => CheckedL body && CheckedL rest
  | .forLoop _ _ body :: rest => CheckedL body && CheckedL rest
  | _ :: rest => CheckedL rest

/-- Every error-wrap context appearing in the statement list (at any
nesting depth) equals `s`. -/
def allWrapCtx : List GoStmt → String → Bool
  | [], _ => true
  | .ifErrReturnWrap c :: rest, s => c == s && allWrapCtx rest s
  | .convCheck _ _ c :: rest, s => c == s && allWrapCtx rest s
  | .ifNonNil _ body :: rest, s => allWrapCtx body s && allWrapCtx rest s
  | .forLoop _ _ body :: rest, s => allWrapCtx body s && allWrapCtx rest s
  | _ :: rest, s => allWrapCtx rest s

/-- Number of declarations of variable `nm` in a statement list, counting
`var` declarations and `:=` make-assignments at every nesting depth. -/
def countVarIn (nm : String) : List GoStmt → Nat
  | [] => 0
  | .varDecl n _ :: rest => (if n = nm then 1 else 0) + countVarIn nm rest
  | .makeAssign n _ _ :: rest => (if n = nm then 1 else 0) + countVarIn nm rest
  | .ifNonNil _ body :: rest => countVarIn nm body + countVarIn nm rest
  | .forLoop _ _ body :: rest => countVarIn nm body + countVarIn nm rest
  | _ :: rest => countVarIn nm rest

theorem execList_nil (env : Env) (st : ExecSt) : execList env [] st = st := by
  rw [execList]

theorem execList_cons (env : Env) (s : GoStmt) (rest : List GoStmt)
    (st : ExecSt) : execList env (s :: rest) st = execList env rest (exec env s st) := by
  rw [execList]

theorem execIter_zero (env : Env) (body : List GoStmt) (st : ExecSt) :
    execIter env 0 body st = st := by
  rw [execIter]

theorem execIter_succ (env : Env) (m : Nat) (body : List GoStmt) (st : ExecSt) :
    execIter env (m + 1) body st = execIter env m body (execList env body st) := by
  rw [execIter]

theorem exec_of_ret (env : Env) (s : GoStmt) (st : ExecSt)
    (h : st.ret.isSome = true) : exec env s st = st := by
  rw [exec.eq_def, if_pos h]

theorem execList_of_ret (env : Env) :
    ∀ (l : List GoStmt) (st : ExecSt), st.ret.isSome = true →
      execList env l st = st
  | [], st, _ => execList_nil env st
  | s :: rest, st, h => by
    rw [execList_cons, exec_of_ret env s st h, execList_of_ret env rest st h]

theorem execIter_of_ret (env : Env) :
    ∀ (n : Nat) (body : List GoStmt) (st : ExecSt), st.ret.isSome = true →
      execIter env n body st = st
  | 0, body, st, _ => execIter_zero env body st
  | m + 1, body, st, h => by
    rw [execIter_succ, execList_of_ret env body st h,
      execIter_of_ret env m body st h]

theorem exec_resolveAssign (env : Env) (p : Bool) (req : ResolveReq)
    (st : ExecSt) (h : st.ret.isSome = false) :
    exec env (.resolveAssign p req) st =
      { st with nCalls := st.nCalls + 1, errFlag := !env.ok st.nCalls } := by
  rw [exec.eq_def, if_neg (by simp [h])]

theorem exec_ifErrReturnWrap (env : Env) (ctx : String) (st : ExecSt)
    (h : st.ret.isSome = false) :
    exec env (.ifErrReturnWrap ctx) st =
      (if st.errFlag then { st with ret := some (some ctx) } else st) := by
  rw [exec.eq_def, if_neg (by simp [h])]

theorem exec_convCheck (env : Env) (fn : String) (args : List String)
    (ctx : String) (st : ExecSt) (h : st.ret.isSome = false) :
    exec env (.convCheck fn args ctx) st =
      (if env.convOk st.nConv then
        { st with nConv := st.nConv + 1, errFlag := false }
      else
        { st with nConv := st.nConv + 1, errFlag := true, ret := some (some ctx) }) := by
  rw [exec.eq_def, if_neg (by simp [h])]

theorem exec_ifNonNil (env : Env) (path : List String) (body : List GoStmt)
    (st : ExecSt) (h : st.ret.isSome = false) :
    exec env (.ifNonNil path body) st =
      (if env.nonNil path then execList env body st else st) := by
  rw [exec.eq_def, if_neg (by simp [h])]

theorem exec_forLoop (env : Env) (v : String) (lenPath : List String)
    (body : List GoStmt) (st : ExecSt) (h : st.ret.isSome = false) :
    exec env (.forLoop v lenPath body) st =
      execIter env (env.lenOf lenPath) body st := by
  rw [exec.eq_def, if_neg (by simp [h])]

theorem exec_newResolver (env : Env) (c r : String) (st : ExecSt) :
    exec env (.newResolver c r) st = st := by
  rw [exec.eq_def]
  split
  · rfl
  · rfl

theorem exec_varDecl (env : Env) (n t : String) (st : ExecSt) :
    exec env (.varDecl n t) st = st := by
  rw [exec.eq_def]
  split
  · rfl
  · rfl

theorem exec_makeAssign (env : Env) (n t e : String) (st : ExecSt) :
    exec env (.makeAssign n t e) st = st := by
  rw [exec.eq_def]
  split
  · rfl
  · rfl

theorem exec_assign (env : Env) (lhs : List String) (rhs : String)
    (st : ExecSt) : exec env (.assign lhs rhs) st = st := by
  rw [exec.eq_def]
  split
  · rfl
  · rfl

theorem exec_returnNil (env : Env) (st : ExecSt) (h : st.ret.isSome = false) :
    exec env .returnNil st = { st with ret := some none } := by
  rw [exec.eq_def, if_neg (by simp [h])]

theorem exec_nCalls_generic (env : Env) (head : GoStmt) (st : ExecSt)
    (h1 : ∀ p q, head ≠ GoStmt.resolveAssign p q)
    (h2 : ∀ p b, head ≠ GoStmt.ifNonNil p b)
    (h3 : ∀ v p b, head ≠ GoStmt.forLoop v p b) :
    (exec env head st).nCalls = st.nCalls := by
  by_cases hret : st.ret.isSome = true
  · rw [exec_of_ret env head st hret]
  · have hret' : st.ret.isSome = false := by simpa using hret
    cases head with
    | newResolver c r => rw [exec_newResolver]
    | varDecl n t => rw [exec_varDecl]
    | resolveAssign p q => exact absurd rfl (h1 p q)
    | ifErrReturnWrap ctx =>
      rw [exec_ifErrReturnWrap env ctx st hret']
      split
      · rfl
      · rfl
    | convCheck f a c =>
      rw [exec_convCheck env f a c st hret']
      split
      · rfl
      · rfl
    | makeAssign n t e => rw [exec_makeAssign]
    | assign l r => rw [exec_assign]
    | ifNonNil p b => exact absurd rfl (h2 p b)
    | forLoop v p b => exact absurd rfl (h3 v p b)
    | returnNil => rw [exec_returnNil env st hret']

theorem CheckedL_cons_generic (head : GoStmt) (rest : List GoStmt)
    (h1 : ∀ p q, head ≠ GoStmt.resolveAssign p q)
    (h2 : ∀ p b, head ≠ GoStmt.ifNonNil p b)
    (h3 : ∀ v p b, head ≠ GoStmt.forLoop v p b) :
    CheckedL (head :: rest) = CheckedL rest := by
  cases head with
  | resolveAssign p q => exact absurd rfl (h1 p q)
  | ifNonNil p b => exact absurd rfl (h2 p b)
  | forLoop v p b => exact absurd rfl (h3 v p b)
  | newResolver c r => simp [CheckedL]
  | varDecl n t => simp [CheckedL]
  | ifErrReturnWrap c => simp [CheckedL]
  | convCheck f a c => simp [CheckedL]
  | makeAssign n t e => simp [CheckedL]
  | assign l r => simp [CheckedL]
  | returnNil => simp [CheckedL]

theorem segOkIter_of (env : Env) (body : List GoStmt)
    (hbody : ∀ st k, st.nCalls ≤ k → k < (execList env body st).nCalls →
      env.ok k = true ∨ ((execList env body st).nCalls = k + 1 ∧
        ∃ c, (execList env body st).ret = some (some c))) :
    ∀ (n : Nat) (st : ExecSt) (k : Nat), st.nCalls ≤ k →
      k < (execIter env n body st).nCalls →
      env.ok k = true ∨ ((execIter env n body st).nCalls = k + 1 ∧
        ∃ c, (execIter env n body st).ret = some (some c)) := by
  intro n
  induction n with
  | zero =>
    intro st k h1 h2
    rw [execIter_zero] at h2
    omega
  | succ m ih =>
    intro st k h1 h2
    rw [execIter_succ] at h2 ⊢
    by_cases hk : k < (execList env body st).nCalls
    · rcases hbody st k h1 hk with hok | ⟨heq, c, hret⟩
      · left
        exact hok
      · right
        rw [execIter_of_ret env m body _ (by simp [hret])] at h2 ⊢
        exact ⟨heq, c, hret⟩
    · exact ih (execList env body st) k (by omega) h2

theorem segOkList (env : Env) :
    ∀ l : List GoStmt, CheckedL l = true →
      ∀ (st : ExecSt) (k : Nat), st.nCalls ≤ k →
        k < (execList env l st).nCalls →
        env.ok k = true ∨ ((execList env l st).nCalls = k + 1 ∧
          ∃ c, (execList env l st).ret = some (some c)) := by
  intro l
  induction l using CheckedL.induct with
  | case1 =>
    intro _ st k h1 h2
    rw [execList_nil] at h2
    omega
  | case2 p req ctx rest ih =>
    intro hc st k hk1 hk2
    have hcr : CheckedL rest = true := by simpa [CheckedL] using hc
    rw [execList_cons, execList_cons] at hk2 ⊢
    by_cases hret : st.ret.isSome = true
    · rw [exec_of_ret env _ st hret, exec_of_ret env _ st hret,
        execList_of_ret env rest st hret] at hk2 ⊢
      omega
    · have hret' : st.ret.isSome = false := by simpa using hret
      rw [exec_resolveAssign env _ _ st hret'] at hk2 ⊢
      by_cases hok : env.ok st.nCalls = true
      · have hstep : exec env (.ifErrReturnWrap ctx)
            { st with nCalls := st.nCalls + 1, errFlag := !env.ok st.nCalls }
            = { st with nCalls := st.nCalls + 1, errFlag := !env.ok st.nCalls } := by
          rw [exec_ifErrReturnWrap env ctx _ (by simp [hret'])]
          simp [hok]
        rw [hstep] at hk2 ⊢
        by_cases hkk : k = st.nCalls
        · left
          rw [hkk]
          exact hok
        · exact ih hcr _ k (by simp; omega) hk2
      · have hokf : env.ok st.nCalls = false := by simpa using hok
        have hstep : exec env (.ifErrReturnWrap ctx)
            { st with nCalls := st.nCalls + 1, errFlag := !env.ok st.nCalls }
            = { st with nCalls := st.nCalls + 1, errFlag := !env.ok st.nCalls, ret := some (some ctx) } := by
          rw [exec_ifErrReturnWrap env ctx _ (by simp [hret'])]
          simp [hokf]
        rw [hstep, execList_of_ret env rest _ (by simp)] at hk2 ⊢
        right
        refine ⟨?_, ctx, by simp⟩
        simp at hk2 ⊢
        omega
  | case3 p req tail hnot =>
    intro hc
    exfalso
    cases tail with
    | nil => simp [CheckedL] at hc
    | cons h2 t2 =>
      cases h2 with
      | ifErrReturnWrap ctx => exact hnot ctx t2 rfl
      | newResolver c r => simp [CheckedL] at hc
      | varDecl n t => simp [CheckedL] at hc
      | resolveAssign pp qq => simp [CheckedL] at hc
      | convCheck f a c => simp [CheckedL] at hc
      | makeAssign n t e => simp [CheckedL] at hc
      | assign l r => simp [CheckedL] at hc
      | ifNonNil pa b => simp [CheckedL] at hc
      | forLoop v pa b => simp [CheckedL] at hc
      | returnNil => simp [CheckedL] at hc
  | case4 path body rest ihb ihr =>
    intro hc st k hk1 hk2
    have hcb : CheckedL body = true ∧ CheckedL rest = true := by
      simpa [CheckedL, Bool.and_eq_true] using hc
    rw [execList_cons] at hk2 ⊢
    by_cases hret : st.ret.isSome = true
    · rw [exec_of_ret env _ st hret] at hk2 ⊢
      exact ihr hcb.2 st k hk1 hk2
    · have hret' : st.ret.isSome = false := by simpa using hret
      rw [exec_ifNonNil env path body st hret'] at hk2 ⊢
      by_cases hnn : env.nonNil path = true
      · rw [if_pos hnn] at hk2 ⊢
        by_cases hk : k < (execList env body st).nCalls
        · rcases ihb hcb.1 st k hk1 hk with hok | ⟨heq, c, hret2⟩
          · left
            exact hok
          · right
            rw [execList_of_ret env rest _ (by simp [hret2])] at hk2 ⊢
            exact ⟨heq, c, hret2⟩
        · exact ihr hcb.2 _ k (by omega) hk2
      · rw [if_neg hnn] at hk2 ⊢
        exact ihr hcb.2 st k hk1 hk2
  | case5 v lenPath body rest ihb ihr =>
    intro hc st k hk1 hk2
    have hcb : CheckedL body = true ∧ CheckedL rest = true := by
      simpa [CheckedL, Bool.and_eq_true] using hc
    rw [execList_cons] at hk2 ⊢
    by_cases hret : st.ret.isSome = true
    · rw [exec_of_ret env _ st hret] at hk2 ⊢
      exact ihr hcb.2 st k hk1 hk2
    · have hret' : st.ret.isSome = false := by simpa using hret
      rw [exec_forLoop env v lenPath body st hret'] at hk2 ⊢
      by_cases hk : k < (execIter env (env.lenOf lenPath) body st).nCalls
      · rcases segOkIter_of env body (fun st' k' h1 h2 => ihb hcb.1 st' k' h1 h2)
            (env.lenOf lenPath) st k hk1 hk with hok | ⟨heq, c, hret2⟩
        · left
          exact hok
        · right
          rw [execList_of_ret env rest _ (by simp [hret2])] at hk2 ⊢
          exact ⟨heq, c, hret2⟩
      · exact ihr hcb.2 _ k (by omega) hk2
  | case6 head rest hx1 hx2 hx3 hx4 ih =>
    intro hc st k hk1 hk2
    have hcr : CheckedL rest = true := by
      rw [CheckedL_cons_generic head rest hx2 hx3 hx4] at hc
      exact hc
    rw [execList_cons] at hk2 ⊢
    have hnc : (exec env head st).nCalls = st.nCalls :=
      exec_nCalls_generic env head st hx2 hx3 hx4
    exact ih hcr (exec env head st) k (by omega) hk2

theorem CheckedL_resolve_unchecked (p : Bool) (req : ResolveReq)
    (tail : List GoStmt)
    (hnot : ∀ (ctx : String) (rest : List GoStmt),
      tail = GoStmt.ifErrReturnWrap ctx :: rest → False) :
    CheckedL (GoStmt.resolveAssign p req :: tail) = false := by
  cases tail with
  | nil => simp [CheckedL]
  | cons h2 t2 =>
    cases h2 with
    | ifErrReturnWrap ctx => exact (hnot ctx t2 rfl).elim
    | newResolver c r => simp [CheckedL]
    | varDecl n t => simp [CheckedL]
    | resolveAssign pp qq => simp [CheckedL]
    | convCheck f a c => simp [CheckedL]
    | makeAssign n t e => simp [CheckedL]
    | assign l r => simp [CheckedL]
    | ifNonNil pa b => simp [CheckedL]
    | forLoop v pa b => simp [CheckedL]
    | returnNil => simp [CheckedL]

theorem CheckedL_append (l2 : List GoStmt) (h2 : CheckedL l2 = true) :
    ∀ l1, CheckedL l1 = true → CheckedL (l1 ++ l2) = true := by
  intro l1
  induction l1 using CheckedL.induct with
  | case1 => intro _; simpa using h2
  | case2 p req ctx rest ih =>
    intro h1
    have hcr : CheckedL rest = true := by simpa [CheckedL] using h1
    rw [List.cons_append, List.cons_append]
    simpa [CheckedL] using ih hcr
  | case3 p req tail hnot =>
    intro h1
    rw [CheckedL_resolve_unchecked p req tail hnot] at h1
    exact absurd h1 (by simp)
  | case4 path body rest ihb ihr =>
    intro h1
    simp only [CheckedL, Bool.and_eq_true] at h1
    rw [List.cons_append]
    simp only [CheckedL, Bool.and_eq_true]
    exact ⟨h1.1, ihr h1.2⟩
  | case5 v lenPath body rest ihb ihr =>
    intro h1
    simp only [CheckedL, Bool.and_eq_true] at h1
    rw [List.cons_append]
    simp only [CheckedL, Bool.and_eq_true]
    exact ⟨h1.1, ihr h1.2⟩
  | case6 head rest hx1 hx2 hx3 hx4 ih =>
    intro h1
    rw [CheckedL_cons_generic head rest hx2 hx3 hx4] at h1
    rw [List.cons_append, CheckedL_cons_generic head (rest ++ l2) hx2 hx3 hx4]
    exact ih h1

theorem CheckedL_flatten (ls : List (List GoStmt))
    (h : ∀ l ∈ ls, CheckedL l = true) : CheckedL ls.flatten = true := by
  induction ls with
  | nil => simp [CheckedL]
  | cons a ls ih =>
    rw [List.flatten_cons]
    exact CheckedL_append ls.flatten
      (ih (fun l hl => h l (List.mem_cons_of_mem a hl))) a
      (h a (List.mem_cons_self a ls))

theorem CheckedL_singleResolutionCall (ref : Reference) (fields : List String) :
    CheckedL (singleResolutionCall ref fields) = true := by
  rw [singleResolutionCall]
  by_cases hp : ref.IsPointer
  · simp [hp, CheckedL]
  · simp [hp, CheckedL]

theorem CheckedL_multiResolutionCall (ref : Reference) (fields : List String) :
    CheckedL (multiResolutionCall ref fields) = true := by
  rw [multiResolutionCall]
  by_cases hp : ref.IsPointer
  · simp [hp, CheckedL]
  · simp [hp, CheckedL]

theorem CheckedL_encapsulate (callFn : List String → List GoStmt)
    (hcall : ∀ fs, CheckedL (callFn fs) = true) (index : Nat)
    (fields : List String) :
    CheckedL (encapsulate callFn index fields).1 = true := by
  induction index, fields using encapsulate.induct callFn with
  | case1 index fields hle =>
    rw [encapsulate, dif_pos hle]
    exact hcall fields
  | case2 index fields hle field hp fields' ih =>
    rw [encapsulate, dif_neg hle, if_pos hp]
    simp only [CheckedL, Bool.and_eq_true]
    exact ⟨ih, trivial⟩
  | case3 index fields hle field hps hp fields' ih =>
    rw [encapsulate, dif_neg hle, if_neg hps, if_pos hp]
    simp only [CheckedL, Bool.and_eq_true]
    exact ⟨ih, trivial⟩
  | case4 index fields hle field hps hpb ih =>
    rw [encapsulate, dif_neg hle, if_neg hps, if_neg hpb]
    exact ih

theorem CheckedL_resolverCallFor (ref : Reference) :
    CheckedL (resolverCallFor ref).1 = true := by
  rw [resolverCallFor]
  by_cases hs : ref.IsSlice
  · simp only [hs, if_true]
    exact CheckedL_encapsulate _ (CheckedL_multiResolutionCall ref) 0 _
  · simp only [hs, Bool.false_eq_true, if_false]
    exact CheckedL_encapsulate _ (CheckedL_singleResolutionCall ref) 0 _

theorem CheckedL_initStatements (hasSingle hasMulti : Bool) :
    CheckedL (initStatements hasSingle hasMulti) = true := by
  rw [initStatements]
  by_cases h1 : hasSingle
  · by_cases h2 : hasMulti
    · simp [h1, h2, CheckedL]
    · simp [h1, h2, CheckedL]
  · by_cases h2 : hasMulti
    · simp [h1, h2, CheckedL]
    · simp [h1, h2, CheckedL]

theorem CheckedL_procBody (receiver : String) (refs : List Reference) :
    CheckedL (procBody receiver refs) = true := by
  rw [procBody]
  rw [CheckedL_cons_generic _ _ (fun p q h => GoStmt.noConfusion h)
    (fun p b h => GoStmt.noConfusion h) (fun v p b h => GoStmt.noConfusion h)]
  exact CheckedL_append [GoStmt.returnNil] (by simp [CheckedL]) _
    (CheckedL_append _ (CheckedL_flatten _ (by
        intro l hl
        rw [List.mem_map] at hl
        obtain ⟨r, _, rfl⟩ := hl
        exact CheckedL_resolverCallFor r)) _
      (CheckedL_append [GoStmt.varDecl "err" "error"] (by simp [CheckedL]) _
        (CheckedL_initStatements _ _)))

theorem allWrapCtx_singleResolutionCall (ref : Reference) (fields : List String) :
    allWrapCtx (singleResolutionCall ref fields)
      (String.intercalate "." fields) = true := by
  rw [singleResolutionCall]
  by_cases hp : ref.IsPointer
  · simp [hp, allWrapCtx]
  · simp [hp, allWrapCtx]

theorem allWrapCtx_multiResolutionCall (ref : Reference) (fields : List String) :
    allWrapCtx (multiResolutionCall ref fields)
      (String.intercalate "." fields) = true := by
  rw [multiResolutionCall]
  by_cases hp : ref.IsPointer
  · simp [hp, allWrapCtx]
  · simp [hp, allWrapCtx]

theorem allWrapCtx_encapsulate (callFn : List String → List GoStmt)
    (hcall : ∀ fs, allWrapCtx (callFn fs) (String.intercalate "." fs) = true)
    (index : Nat) (fields : List String) :
    allWrapCtx (encapsulate callFn index fields).1
      (String.intercalate "." (encapsulate callFn index fields).2) = true := by
  induction index, fields using encapsulate.induct callFn with
  | case1 index fields hle =>
    rw [encapsulate, dif_pos hle]
    exact hcall fields
  | case2 index fields hle field hp fields' ih =>
    rw [encapsulate, dif_neg hle, if_pos hp]
    simp only [allWrapCtx, Bool.and_eq_true]
    exact ⟨ih, trivial⟩
  | case3 index fields hle field hps hp fields' ih =>
    rw [encapsulate, dif_neg hle, if_neg hps, if_pos hp]
    simp only [allWrapCtx, Bool.and_eq_true]
    exact ⟨ih, trivial⟩
  | case4 index fields hle field hps hpb ih =>
    rw [encapsulate, dif_neg hle, if_neg hps, if_neg hpb]
    exact ih

theorem allWrapCtx_resolverCallFor (ref : Reference) :
    allWrapCtx (resolverCallFor ref).1
      (String.intercalate "."
        (resolverCallFor ref).2.GoValueFieldPath) = true := by
  rw [resolverCallFor]
  by_cases hs : ref.IsSlice
  · simp only [hs, if_true]
    exact allWrapCtx_encapsulate _ (allWrapCtx_multiResolutionCall ref) 0 _
  · simp only [hs, Bool.false_eq_true, if_false]
    exact allWrapCtx_encapsulate _ (allWrapCtx_singleResolutionCall ref) 0 _

/-- Initial execution state of a generated procedure: no calls made, `err`
nil, not yet returned. -/
def initExecSt : ExecSt := { nCalls := 0, nConv := 0, errFlag := false, ret := none }

/-- C4 counterexample: for the reference with value field path
`["A", "[]B", "*C"]` the context of every emitted failure check is the
narrowed path `"A.B[i1].C"`, not the full dotted value field path — neither
the raw join `"A.[]B.*C"` of `GoValueFieldPath` nor the marker-free join
`"A.B.C"` of its segment names. -/
theorem resolve_wrap_context_counterexample :
    allWrapCtx (resolverCallFor refABC).1 "A.B[i1].C" = true ∧
    allWrapCtx (resolverCallFor refABC).1
      (String.intercalate "." refABC.GoValueFieldPath) = false ∧
    allWrapCtx (resolverCallFor refABC).1 "A.B.C" = false := by
  refine ⟨?_, ?_, ?_⟩ <;>
    simp +decide [resolverCallFor, refABC, encapsulate, hasPre, cleaner,
      cleanerChars, singleResolutionCall, goDotPre, allWrapCtx,
      String.intercalate]

/-- C4 (amended): every emitted block places immediately after its lookup
call a failure check returning the error wrapped with the dotted value field
path in its narrowed form — optional markers stripped and repeated segments
carrying their loop-index accesses — as context, and in any run of the
generated procedure a failing lookup is the last lookup executed: the
procedure returns a wrapped error at once and no code path reaches a later
Reference's lookup call. -/
theorem resolve_failure_returns_immediately (receiver : String)
    (refs : List Reference) (env : Env) (k : Nat)
    (hk : k < (execList env (procBody receiver refs) initExecSt).nCalls)
    (hfail : env.ok k = false) :
    (∀ ref ∈ refs, allWrapCtx (resolverCallFor ref).1
        (String.intercalate "."
          (resolverCallFor ref).2.GoValueFieldPath) = true) ∧
    CheckedL (procBody receiver refs) = true ∧
    (execList env (procBody receiver refs) initExecSt).nCalls = k + 1 ∧
    ∃ c, (execList env (procBody receiver refs) initExecSt).ret
      = some (some c) := by
  refine ⟨fun ref _ => allWrapCtx_resolverCallFor ref,
    CheckedL_procBody receiver refs, ?_⟩
  rcases segOkList env (procBody receiver refs)
      (CheckedL_procBody receiver refs) initExecSt k
      (by simp [initExecSt]) hk with hok | h2
  · rw [hok] at hfail
    exact absurd hfail (by simp)
  · exact h2

/-- A reference with a plain, marker-free value field path. -/
def refPlain : Reference :=
  { RemoteType := "&Remote\x7b\x7d"
    Extractor := "reference.ExternalName()"
    RemoteListType := "&RemoteList\x7b\x7d"
    GoValueFieldPath := ["r", "Spec", "Name"]
    GoRefFieldName := "NameRef"
    GoSelectorFieldName := "NameSelector"
    IsSlice := false
    IsPointer := false
    SourceType := ""
    SourceName := "Name" }

/-- Environment in which every lookup call fails. -/
def envAllFail : Env :=
  { ok := fun _ => false, convOk := fun _ => true,
    nonNil := fun _ => true, lenOf := fun _ => 1 }

/-- The request record of `refPlain`'s lookup call. -/
def reqPlain : ResolveReq :=
  { currentValue := ["r", "Spec", "Name"]
    ptrAdapted := false
    reference := ["r", "Spec", "NameRef"]
    selector := ["r", "Spec", "NameSelector"]
    managed := "&Remote\x7b\x7d"
    listTy := "&RemoteList\x7b\x7d"
    extract := "reference.ExternalName()" }

theorem resolverCallFor_refPlain : (resolverCallFor refPlain).1 =
    [.resolveAssign false reqPlain,
     .ifErrReturnWrap "r.Spec.Name",
     .assign ["r", "Spec", "Name"] "rsp.ResolvedValue",
     .assign ["r", "Spec", "NameRef"] "rsp.ResolvedReference"] := by
  simp +decide [resolverCallFor, refPlain, reqPlain, encapsulate,
    singleResolutionCall, goDotPre, hasPre, cleaner, cleanerChars,
    String.intercalate]

theorem procBody_refPlain : procBody "r" [refPlain] =
    [.newResolver "c" "r",
     .varDecl "rsp" "reference.ResolutionResponse",
     .varDecl "err" "error",
     .resolveAssign false reqPlain,
     .ifErrReturnWrap "r.Spec.Name",
     .assign ["r", "Spec", "Name"] "rsp.ResolvedValue",
     .assign ["r", "Spec", "NameRef"] "rsp.ResolvedReference",
     .returnNil] := by
  rw [procBody]
  simp only [List.map_cons, List.map_nil, List.flatten_cons, List.flatten_nil,
    List.append_nil]
  rw [resolverCallFor_refPlain]
  rfl

theorem run_refPlain_allFail :
    execList envAllFail (procBody "r" [refPlain]) initExecSt =
      { nCalls := 1, nConv := 0, errFlag := true,
        ret := some (some "r.Spec.Name") } := by
  rw [procBody_refPlain]
  rw [execList_cons, exec_newResolver]
  rw [execList_cons, exec_varDecl]
  rw [execList_cons, exec_varDecl]
  rw [execList_cons, exec_resolveAssign envAllFail false reqPlain initExecSt (by rfl)]
  rw [execList_cons, exec_ifErrReturnWrap envAllFail "r.Spec.Name" _ (by rfl)]
  rw [if_pos (by rfl)]
  rw [execList_cons, exec_of_ret envAllFail _ _ (by rfl)]
  rw [execList_cons, exec_of_ret envAllFail _ _ (by rfl)]
  rw [execList_cons, exec_of_ret envAllFail _ _ (by rfl)]
  rw [execList_nil]
  rfl

/-- Witness for `resolve_failure_returns_immediately`: with the single
reference `refPlain` and an environment whose first lookup fails, the run
makes exactly one call and returns a wrapped error. -/
theorem resolve_failure_returns_immediately_witness :
    (∀ ref ∈ [refPlain], allWrapCtx (resolverCallFor ref).1
        (String.intercalate "."
          (resolverCallFor ref).2.GoValueFieldPath) = true) ∧
    CheckedL (procBody "r" [refPlain]) = true ∧
    (execList envAllFail (procBody "r" [refPlain]) initExecSt).nCalls = 0 + 1 ∧
    ∃ c, (execList envAllFail (procBody "r" [refPlain]) initExecSt).ret
      = some (some c) :=
  resolve_failure_returns_immediately "r" [refPlain] envAllFail 0
    (by rw [run_refPlain_allFail]; exact Nat.zero_lt_one) rfl

theorem countVar_append (nm : String) (l1 l2 : List GoStmt) :
    countVarIn nm (l1 ++ l2) = countVarIn nm l1 + countVarIn nm l2 := by
  induction l1 with
  | nil => simp [countVarIn]
  | cons head rest ih =>
    cases head <;> simp [countVarIn, ih, Nat.add_assoc]

theorem countVar_flatten_zero (nm : String) (ls : List (List GoStmt))
    (h : ∀ l ∈ ls, countVarIn nm l = 0) : countVarIn nm ls.flatten = 0 := by
  induction ls with
  | nil => simp [countVarIn]
  | cons a ls ih =>
    rw [List.flatten_cons, countVar_append, h a (List.mem_cons_self a ls),
      ih (fun l hl => h l (List.mem_cons_of_mem a hl))]

theorem countVar_encapsulate (nm : String) (callFn : List String → List GoStmt)
    (hcall : ∀ fs, countVarIn nm (callFn fs) = 0) (index : Nat)
    (fields : List String) :
    countVarIn nm (encapsulate callFn index fields).1 = 0 := by
  induction index, fields using encapsulate.induct callFn with
  | case1 index fields hle =>
    rw [encapsulate, dif_pos hle]
    exact hcall fields
  | case2 index fields hle field hp fields' ih =>
    rw [encapsulate, dif_neg hle, if_pos hp]
    simp only [countVarIn, Nat.add_zero]
    exact ih
  | case3 index fields hle field hps hp fields' ih =>
    rw [encapsulate, dif_neg hle, if_neg hps, if_pos hp]
    simp only [countVarIn, Nat.add_zero]
    exact ih
  | case4 index fields hle field hps hpb ih =>
    rw [encapsulate, dif_neg hle, if_neg hps, if_neg hpb]
    exact ih

theorem countVar_singleResolutionCall (nm : String) (ref : Reference)
    (fields : List String) (h : "v" ++ ref.SourceName ≠ nm) :
    countVarIn nm (singleResolutionCall ref fields) = 0 := by
  rw [singleResolutionCall]
  by_cases hp : ref.IsPointer
  · simp [hp, countVarIn, h]
  · simp [hp, countVarIn]

theorem countVar_multiResolutionCall (nm : String) (ref : Reference)
    (fields : List String) (h : "v" ++ ref.SourceName ≠ nm) :
    countVarIn nm (multiResolutionCall ref fields) = 0 := by
  rw [multiResolutionCall]
  by_cases hp : ref.IsPointer
  · simp [hp, countVarIn, h]
  · simp [hp, countVarIn]

theorem vname_ne_rsp (s : String) : "v" ++ s ≠ "rsp" := by
  intro h
  have hd := congrArg String.data h
  rw [String.data_append, show ("v" : String).data = ['v'] from rfl,
    show ("rsp" : String).data = ['r', 's', 'p'] from rfl,
    List.singleton_append] at hd
  injection hd with h1 _
  exact absurd h1 (by decide)

theorem vname_ne_mrsp (s : String) : "v" ++ s ≠ "mrsp" := by
  intro h
  have hd := congrArg String.data h
  rw [String.data_append, show ("v" : String).data = ['v'] from rfl,
    show ("mrsp" : String).data = ['m', 'r', 's', 'p'] from rfl,
    List.singleton_append] at hd
  injection hd with h1 _
  exact absurd h1 (by decide)

theorem countVar_resolverCallFor (nm : String) (r : Reference)
    (h : "v" ++ r.SourceName ≠ nm) :
    countVarIn nm (resolverCallFor r).1 = 0 := by
  rw [resolverCallFor]
  by_cases hs : r.IsSlice
  · simp only [hs, if_true]
    exact countVar_encapsulate nm _
      (fun fs => countVar_multiResolutionCall nm r fs h) 0 _
  · simp only [hs, Bool.false_eq_true, if_false]
    exact countVar_encapsulate nm _
      (fun fs => countVar_singleResolutionCall nm r fs h) 0 _

theorem countVar_initStatements_rsp (h1 h2 : Bool) :
    countVarIn "rsp" (initStatements h1 h2) = if h1 then 1 else 0 := by
  rw [initStatements]
  by_cases a : h1 = true
  · by_cases b : h2 = true
    · simp +decide [a, b, countVarIn]
    · simp +decide [a, b, countVarIn]
  · by_cases b : h2 = true
    · simp +decide [a, b, countVarIn]
    · simp +decide [a, b, countVarIn]

theorem countVar_initStatements_mrsp (h1 h2 : Bool) :
    countVarIn "mrsp" (initStatements h1 h2) = if h2 then 1 else 0 := by
  rw [initStatements]
  by_cases a : h1 = true
  · by_cases b : h2 = true
    · simp +decide [a, b, countVarIn]
    · simp +decide [a, b, countVarIn]
  · by_cases b : h2 = true
    · simp +decide [a, b, countVarIn]
    · simp +decide [a, b, countVarIn]

/-- C3: in every emitted procedure, the singular response variable `rsp` is
declared exactly once when at least one accumulated Reference has `IsSlice`
false and not at all otherwise, and the plural response variable `mrsp` is
declared exactly once when at least one accumulated Reference has `IsSlice`
true and not at all otherwise — never one declaration per Reference. -/
theorem response_variables_declared_once (receiver : String)
    (refs : List Reference) (h : refs ≠ []) :
    ∃ body, (NewResolveReferences receiver refs).1 = some body ∧
      countVarIn "rsp" body
        = (if refs.any (fun r => !r.IsSlice) then 1 else 0) ∧
      countVarIn "mrsp" body
        = (if refs.any (fun r => r.IsSlice) then 1 else 0) := by
  refine ⟨procBody receiver refs, ?_, ?_, ?_⟩
  · rw [NewResolveReferences, if_neg (by
      cases refs with
      | nil => exact absurd rfl h
      | cons a l => simp)]
  · rw [procBody]
    rw [show ∀ X, countVarIn "rsp" (GoStmt.newResolver "c" receiver :: X)
        = countVarIn "rsp" X from fun X => by simp [countVarIn]]
    rw [countVar_append, countVar_append, countVar_append,
      countVar_initStatements_rsp,
      countVar_flatten_zero "rsp" _ (by
        intro l hl
        rw [List.mem_map] at hl
        obtain ⟨r, _, rfl⟩ := hl
        exact countVar_resolverCallFor "rsp" r (vname_ne_rsp _))]
    simp +decide [countVarIn]
  · rw [procBody]
    rw [show ∀ X, countVarIn "mrsp" (GoStmt.newResolver "c" receiver :: X)
        = countVarIn "mrsp" X from fun X => by simp [countVarIn]]
    rw [countVar_append, countVar_append, countVar_append,
      countVar_initStatements_mrsp,
      countVar_flatten_zero "mrsp" _ (by
        intro l hl
        rw [List.mem_map] at hl
        obtain ⟨r, _, rfl⟩ := hl
        exact countVar_resolverCallFor "mrsp" r (vname_ne_mrsp _))]
    simp +decide [countVarIn]

/-- Witness for `response_variables_declared_once` on a single non-plural
reference: `rsp` declared once, `mrsp` not at all. -/
theorem response_variables_declared_once_witness :
    ∃ body, (NewResolveReferences "r" [refPlain]).1 = some body ∧
      countVarIn "rsp" body
        = (if [refPlain].any (fun r => !r.IsSlice) then 1 else 0) ∧
      countVarIn "mrsp" body
        = (if [refPlain].any (fun r => r.IsSlice) then 1 else 0) :=
  response_variables_declared_once "r" [refPlain] (by decide)

/-- Shape of a Go field type as seen by the `go/types` switch in `Process`:
a named or basic type, a pointer type, or a slice type. -/
inductive GoType : Type where
  | named (name : String)
  | pointer (elem : GoType)
  | slice (elem : GoType)
deriving Repr, DecidableEq

/-- Rendering of a type, as `types.Type.String()` produces it. -/
def typeString : GoType → String
  | .named n => n
  | .pointer e => "*" ++ typeString e
  | .slice e => "[]" ++ typeString e

/-- Marker key for the reference type (`ReferenceTypeMarker`). -/
def ReferenceTypeMarker : String := "crossplane:generate:reference:type"

/-- Marker key for the extractor override (`ReferenceExtractorMarker`). -/
def ReferenceExtractorMarker : String :=
  "crossplane:generate:reference:extractor"

/-- Marker key for the reference-field-name override. -/
def ReferenceReferenceFieldNameMarker : String :=
  "crossplane:generate:reference:refFieldName"

/-- Marker key for the selector-field-name override. -/
def ReferenceSelectorFieldNameMarker : String :=
  "crossplane:generate:reference:selectorFieldName"

/-- A field descriptor as handed to `Process` by the traverser: its name and
declared type. -/
structure GoField where
  name : String
  ty : GoType
deriving Repr, DecidableEq

/-- Modelled from the spec: the marker parser (`comments.ParseMarkers`, an
external collaborator specified at its interface boundary in spec section 6)
turns a raw comment into a mapping from marker key to the list of its string
values.  A key present in the mapping carries at least one value; an absent
key maps to the empty list.  `Process` consumes this mapping. -/
def Markers : Type := String → List String

/-- Go's `strings.TrimSuffix`. -/
def trimSuffix (s suffix : String) : String :=
  if suffix.data.isSuffixOf s.data then
    ⟨s.data.take (s.data.length - suffix.data.length)⟩
  else s

/-- Model of `getTypeCodeFromPath`: the rendered `&Type{}` or `&pkg.Type{}`
composite literal for the remote type named by a marker value. -/
def getTypeCodeFromPath (path : String) (nameSuffix : List String) : String :=
  let words := path.splitOn "."
  if words.length = 1 then "&" ++ path ++ String.join nameSuffix ++ "\x7b\x7d"
  else
    let name := words.getLastD "" ++ String.join nameSuffix
    let pkg := trimSuffix path ("." ++ words.getLastD "")
    "&" ++ pkg ++ "." ++ name ++ "\x7b\x7d"

/-- Model of `getFuncCodeFromPath`: the rendered function reference for an
extractor marker value. -/
def getFuncCodeFromPath (path : String) : String :=
  let words := path.splitOn "."
  if words.length = 1 then path
  else
    let name := words.getLastD ""
    let pkg := trimSuffix path ("." ++ words.getLastD "")
    pkg ++ "." ++ name

/-- The `ReferenceProcessor` state: the configured default extractor, the
receiver prepended to all field paths, and the accumulated references. -/
structure ReferenceProcessor where
  DefaultExtractor : String
  Receiver : String
  refs : List Reference
deriving Repr, DecidableEq

/-- Model of `ReferenceProcessor.Process`.  The enclosing named type and the
tag of the Go signature are unused and omitted; the raw comment arrives
through the marker parser's mapping (see `Markers`).  The first component of
the result is the returned error (`none` is the nil error), the second the
processor state afterwards.  The `switch` on the field's declared type is
rendered as one match producing `(isPointer, isList, sourceType)`; note that
a pointer-to-slice type takes the generic pointer case, exactly as in Go,
where the code comments `We don't support *[]string.`. -/
def Process (rp : ReferenceProcessor) (f : GoField) (markers : Markers)
    (parentFields : List String) : Option String × ReferenceProcessor :=
  match markers ReferenceTypeMarker with
  | [] => (none, rp)
  | refType :: _ =>
    let shape : Bool × Bool × String :=
      match f.ty with
      | .pointer e => (true, false, typeString e)
      | .slice (.pointer e) => (true, true, typeString e)
      | .slice _ => (false, true, "")
      | .named _ => (false, false, "")
    let isPointer := shape.1
    let isList := shape.2.1
    let sourceType := shape.2.2
    let extractorPath :=
      match markers ReferenceExtractorMarker with
      | [] => rp.DefaultExtractor
      | v :: _ => getFuncCodeFromPath v
    let refFieldName0 := if isList then f.name ++ "Refs" else f.name ++ "Ref"
    let refFieldName :=
      match markers ReferenceReferenceFieldNameMarker with
      | [] => refFieldName0
      | v :: _ => v
    let selectorFieldName :=
      match markers ReferenceSelectorFieldNameMarker with
      | [] => f.name ++ "Selector"
      | v :: _ => v
    let path := rp.Receiver :: parentFields
    (none, { rp with refs := rp.refs ++
      [{ SourceType := sourceType
         SourceName := f.name
         RemoteType := getTypeCodeFromPath refType []
         RemoteListType := getTypeCodeFromPath refType ["List"]
         Extractor := extractorPath
         GoValueFieldPath := path ++ [f.name]
         GoRefFieldName := refFieldName
         GoSelectorFieldName := selectorFieldName
         IsPointer := isPointer
         IsSlice := isList }] })

/-- Model of `GetReferences`: the references accumulated so far. -/
def GetReferences (rp : ReferenceProcessor) : List Reference := rp.refs

/-- Whether a declared type is a slice type (`isList` in `Process`). -/
def isSliceTy : GoType → Bool
  | .slice _ => true
  | _ => false

/-- C9: a field whose comment carries no reference-type marker is a no-op
success of `Process`: no Reference is created, the accumulated list is left
unchanged, and the returned error is nil. -/
theorem no_marker_no_reference (rp : ReferenceProcessor) (f : GoField)
    (markers : Markers) (parentFields : List String)
    (h : markers ReferenceTypeMarker = []) :
    Process rp f markers parentFields = (none, rp) := by
  simp [Process, h]

/-- Witness for `no_marker_no_reference` on an empty marker mapping. -/
theorem no_marker_no_reference_witness :
    Process
      { DefaultExtractor := "reference.ExternalName()"
        Receiver := "r"
        refs := [] }
      { name := "Name", ty := .named "string" } (fun _ => []) ["Spec"]
      = (none,
        { DefaultExtractor := "reference.ExternalName()"
          Receiver := "r"
          refs := [] }) :=
  no_marker_no_reference _ _ _ _ rfl

/-- C10: `Process` returns a nil error for every possible input — it never
exercises its ability to signal failure and so never aborts the traversal. -/
theorem process_never_fails (rp : ReferenceProcessor) (f : GoField)
    (markers : Markers) (parentFields : List String) :
    (Process rp f markers parentFields).1 = none := by
  cases h : markers ReferenceTypeMarker with
  | nil => simp [Process, h]
  | cons v vs => simp [Process, h]

/-- C5: the shape flags of every processed reference field are derived
solely from the field's declared type, never from markers: a pointer type
sets `IsPointer` with `SourceType` the pointee type, a slice type sets
`IsSlice`, a slice-of-pointer sets both with `SourceType` the element's
pointee type, and the pointer-to-list combination is not given plural
handling (a `*[]T` field takes the generic pointer case, with `IsSlice`
false). -/
theorem shape_flags_from_declared_type (rp : ReferenceProcessor)
    (f : GoField) (markers : Markers) (parentFields : List String)
    (refType : String) (rts : List String)
    (h : markers ReferenceTypeMarker = refType :: rts) :
    ∃ ref, (Process rp f markers parentFields).2.refs = rp.refs ++ [ref] ∧
      (ref.IsPointer, ref.IsSlice, ref.SourceType) =
        (match f.ty with
          | .pointer e => (true, false, typeString e)
          | .slice (.pointer e) => (true, true, typeString e)
          | .slice _ => (false, true, "")
          | .named _ => (false, false, "")) := by
  rcases f with ⟨nm, ty⟩
  match ty with
  | .pointer e =>
    simp only [Process, h]
    exact ⟨_, rfl, rfl⟩
  | .slice (.pointer e) =>
    simp only [Process, h]
    exact ⟨_, rfl, rfl⟩
  | .slice (.named n) =>
    simp only [Process, h]
    exact ⟨_, rfl, rfl⟩
  | .slice (.slice e) =>
    simp only [Process, h]
    exact ⟨_, rfl, rfl⟩
  | .named n =>
    simp only [Process, h]
    exact ⟨_, rfl, rfl⟩

/-- Witness for `shape_flags_from_declared_type` at a `[]*string` field. -/
theorem shape_flags_from_declared_type_witness :
    ∃ ref, (Process
      { DefaultExtractor := "reference.ExternalName()"
        Receiver := "r"
        refs := [] }
      { name := "IDs", ty := .slice (.pointer (.named "string")) }
      (fun k => if k = ReferenceTypeMarker then ["Remote"] else []) ["Spec"]).2.refs
        = [] ++ [ref] ∧
      (ref.IsPointer, ref.IsSlice, ref.SourceType) =
        (match GoType.slice (.pointer (.named "string")) with
          | .pointer e => (true, false, typeString e)
          | .slice (.pointer e) => (true, true, typeString e)
          | .slice _ => (false, true, "")
          | .named _ => (false, false, "")) :=
  shape_flags_from_declared_type _ _ _ _ "Remote" [] (by simp)

/-- C7: the sibling reference-record field name of a processed reference
field defaults to the source field name suffixed with `Ref` for a singular
field and `Refs` for a list field, and the sibling selector field name
defaults to the name suffixed with `Selector`; when the corresponding
override marker is present its value is used verbatim instead. -/
theorem sibling_field_name_defaults (rp : ReferenceProcessor) (f : GoField)
    (markers : Markers) (parentFields : List String) (refType : String)
    (rts : List String) (h : markers ReferenceTypeMarker = refType :: rts) :
    ∃ ref, (Process rp f markers parentFields).2.refs = rp.refs ++ [ref] ∧
      ref.GoRefFieldName =
        (match markers ReferenceReferenceFieldNameMarker with
          | [] => if isSliceTy f.ty then f.name ++ "Refs" else f.name ++ "Ref"
          | v :: _ => v) ∧
      ref.GoSelectorFieldName =
        (match markers ReferenceSelectorFieldNameMarker with
          | [] => f.name ++ "Selector"
          | v :: _ => v) := by
  rcases f with ⟨nm, ty⟩
  match ty with
  | .pointer e =>
    simp only [Process, h, isSliceTy]
    exact ⟨_, rfl, rfl, rfl⟩
  | .slice (.pointer e) =>
    simp only [Process, h, isSliceTy]
    exact ⟨_, rfl, rfl, rfl⟩
  | .slice (.named n) =>
    simp only [Process, h, isSliceTy]
    exact ⟨_, rfl, rfl, rfl⟩
  | .slice (.slice e) =>
    simp only [Process, h, isSliceTy]
    exact ⟨_, rfl, rfl, rfl⟩
  | .named n =>
    simp only [Process, h, isSliceTy]
    exact ⟨_, rfl, rfl, rfl⟩

/-- Witness for `sibling_field_name_defaults`: with an explicit
reference-field-name override of exactly `"FooRef"`, the produced Reference
carries `"FooRef"` verbatim while the selector keeps its default. -/
theorem sibling_field_name_defaults_witness :
    ∃ ref, (Process
      { DefaultExtractor := "reference.ExternalName()"
        Receiver := "r"
        refs := [] }
      { name := "ID", ty := .named "string" }
      (fun k => if k = ReferenceTypeMarker then ["Remote"]
        else if k = ReferenceReferenceFieldNameMarker then ["FooRef"]
        else []) ["Spec"]).2.refs = [] ++ [ref] ∧
      ref.GoRefFieldName =
        (match (fun k => if k = ReferenceTypeMarker then ["Remote"]
          else if k = ReferenceReferenceFieldNameMarker then ["FooRef"]
          else [] : Markers) ReferenceReferenceFieldNameMarker with
          | [] => if isSliceTy (GoType.named "string") then "ID" ++ "Refs"
            else "ID" ++ "Ref"
          | v :: _ => v) ∧
      ref.GoSelectorFieldName =
        (match (fun k => if k = ReferenceTypeMarker then ["Remote"]
          else if k = ReferenceReferenceFieldNameMarker then ["FooRef"]
          else [] : Markers) ReferenceSelectorFieldNameMarker with
          | [] => "ID" ++ "Selector"
          | v :: _ => v) :=
  sibling_field_name_defaults _ _ _ _ "Remote" [] (by simp)
